import Mathlib

/-!
Verification of the Regex Builder core: flag codec, global match loop,
highlight renderer, edit history, and pattern library store, embedded
shallowly from the TypeScript sources.
-/

/-- FlagSet from src types: six independent booleans. -/
structure RegexFlags where
  global : Bool
  ignoreCase : Bool
  multiline : Bool
  dotAll : Bool
  unicode : Bool
  sticky : Bool
deriving DecidableEq

/-- Embedding of flagsToString from src lib regex-utils: emits one character
per set flag in the fixed order g, i, m, s, u, y. -/
def flagsToString (flags : RegexFlags) : String :=
  (if flags.global then "g" else "")
    ++ (if flags.ignoreCase then "i" else "")
    ++ (if flags.multiline then "m" else "")
    ++ (if flags.dotAll then "s" else "")
    ++ (if flags.unicode then "u" else "")
    ++ (if flags.sticky then "y" else "")

/-- Embedding of parseFlags from src lib regex-utils: each flag is true iff
its single-letter code occurs anywhere in the string (the string is viewed
through its character list, which is faithful to the includes check on a
single-character needle). -/
def parseFlags (flagsString : String) : RegexFlags :=
  { global := flagsString.toList.contains 'g'
    ignoreCase := flagsString.toList.contains 'i'
    multiline := flagsString.toList.contains 'm'
    dotAll := flagsString.toList.contains 's'
    unicode := flagsString.toList.contains 'u'
    sticky := flagsString.toList.contains 'y' }

/-- PatternMatch from src types: matched text, start and end indices, and
the capture groups (absent groups are none). Strings are embedded as
character lists so that indexing and slicing are structural. -/
structure PatternMatch where
  text : List Char
  startIndex : Nat
  endIndex : Nat
  groups : List (Option (List Char))
deriving DecidableEq

/-- RawMatch is the value the host matching primitive returns from one exec
call: the matched text, the match index, and the capture groups. -/
structure RawMatch where
  text : List Char
  index : Nat
  groups : List (Option (List Char))
deriving DecidableEq

/-- Conversion of a raw primitive match to the PatternMatch pushed by the
TestArea loop: text, startIndex = index, endIndex = index + length, groups. -/
def toPatternMatch (m : RawMatch) : PatternMatch :=
  { text := m.text
    startIndex := m.index
    endIndex := m.index + m.text.length
    groups := m.groups }

/-- Next search position after collecting a match, per the TestArea loop:
exec leaves lastIndex at index + length, and the zero-length guard bumps it
by one more unit when the matched text is empty. -/
def nextSearchIndex (m : RawMatch) : Nat :=
  if m.text.length = 0 then m.index + 1 else m.index + m.text.length

/-- Embedding of the global-flag while loop of the TestArea effect: exec is
the primitive searching from a given position, matches are collected in
order, and the search position advances by nextSearchIndex. The fuel
argument makes the recursion structural; none reports fuel exhaustion, so
termination of the source loop is the statement that enough fuel exists. -/
def collectGlobalMatches (exec : Nat → Option RawMatch) : Nat → Nat → Option (List PatternMatch)
  | 0, _ => none
  | fuel + 1, pos =>
    match exec pos with
    | none => some []
    | some m =>
      match collectGlobalMatches exec fuel (nextSearchIndex m) with
      | none => none
      | some rest => some (toPatternMatch m :: rest)

/-- Well-behavedness of the host primitive on a text of the given length:
a match found from position p starts at or after p, and no match is found
from a position beyond the end of the text. -/
def ExecWellBehaved (textLen : Nat) (exec : Nat → Option RawMatch) : Prop :=
  ∀ p m, exec p = some m → p ≤ m.index ∧ p ≤ textLen

/-- Modelled from the spec: the host regex primitive (external per section 6,
not part of this repository) applied to the pattern x* and the text abc.
Searching from position p yields a zero-length match at p while p is within
the text bounds, and no match once p has moved past the end. -/
def execXStarAbc (p : Nat) : Option RawMatch :=
  if p ≤ 3 then some { text := [], index := p, groups := [] } else none

/-- Span emitted by the highlight renderer: a plain text segment or a
highlighted match segment. -/
inductive Span
  | plain (text : List Char)
  | highlight (text : List Char)
deriving DecidableEq

/-- Text carried by a span. -/
def Span.content : Span → List Char
  | .plain t => t
  | .highlight t => t

/-- Concatenation of the text of a span sequence, in order. -/
def spansContent : List Span → List Char
  | [] => []
  | s :: rest => s.content ++ spansContent rest

/-- Embedding of the forEach walk of renderHighlightedText from the
TestArea: for each match, a plain span for the gap between the previous
end (lastIndex) and the match start when that gap is nonempty, then a
highlighted span carrying the match text; after the last match, a trailing
plain span when lastIndex has not reached the end of the text. The
substring call is embedded as take-then-drop on the character list. -/
def renderMatchSpans (sampleText : List Char) : List PatternMatch → Nat → List Span
  | [], lastIndex =>
    if lastIndex < sampleText.length then [Span.plain (sampleText.drop lastIndex)] else []
  | m :: rest, lastIndex =>
    (if lastIndex < m.startIndex then
      [Span.plain ((sampleText.take m.startIndex).drop lastIndex)]
    else [])
      ++ Span.highlight m.text :: renderMatchSpans sampleText rest m.endIndex

/-- Embedding of renderHighlightedText from the TestArea: an empty sample
text or an empty match list yields a single span holding the whole sample
text, otherwise the match walk runs from position 0. -/
def renderHighlightedText (sampleText : List Char) (ms : List PatternMatch) : List Span :=
  if sampleText = [] ∨ ms = [] then [Span.plain sampleText]
  else renderMatchSpans sampleText ms 0

/-- Well-formedness of a match list against a sample text from a given walk
position, written from the Match invariant of the data model: each match
starts at or after the previous end, has startIndex at most endIndex, and
carries exactly the slice of the sample text between its indices; the final
end position lies within the text. -/
def wellFormedFrom (sampleText : List Char) : Nat → List PatternMatch → Bool
  | lastIndex, [] => decide (lastIndex ≤ sampleText.length)
  | lastIndex, m :: rest =>
    decide (lastIndex ≤ m.startIndex) && decide (m.startIndex ≤ m.endIndex) &&
      decide (m.text = (sampleText.take m.endIndex).drop m.startIndex) &&
      wellFormedFrom sampleText m.endIndex rest

/-- Combined state of the App pattern and the RegexEditor history: pattern
is the displayed pattern owned by the App, history and historyIndex are the
editor undo-redo state. -/
structure AppState where
  pattern : String
  history : List String
  historyIndex : Nat
deriving DecidableEq

/-- Initial state: the App starts with an empty pattern and the editor
seeds its history with the initial pattern at index 0. -/
def initialAppState : AppState :=
  { pattern := "", history := [""], historyIndex := 0 }

/-- Embedding of handlePatternChange from the RegexEditor: the new value
becomes the displayed pattern; when it differs from the entry at the
current history index, the history is truncated after that index, the
value is appended, and the index moves to the new last entry. The source
compares against history[historyIndex], which is undefined out of range
and then never equal to the string value; the optional lookup mirrors
that. -/
def handlePatternChange (s : AppState) (value : String) : AppState :=
  if s.history[s.historyIndex]? = some value then
    { s with pattern := value }
  else
    let newHistory := s.history.take (s.historyIndex + 1) ++ [value]
    { pattern := value, history := newHistory, historyIndex := newHistory.length - 1 }

/-- Embedding of handleUndo from the RegexEditor: when the index is
positive, step it back by one and surface that history entry as the
displayed pattern; no history entry is added. -/
def handleUndo (s : AppState) : AppState :=
  if 0 < s.historyIndex then
    { s with historyIndex := s.historyIndex - 1,
             pattern := s.history.getD (s.historyIndex - 1) "" }
  else s

/-- Embedding of handleRedo from the RegexEditor: when the index is below
the last entry, step it forward by one and surface that history entry as
the displayed pattern; no history entry is added. -/
def handleRedo (s : AppState) : AppState :=
  if s.historyIndex < s.history.length - 1 then
    { s with historyIndex := s.historyIndex + 1,
             pattern := s.history.getD (s.historyIndex + 1) "" }
  else s

/-- Embedding of the onSelectPattern callback in App: selecting a library
entry replaces the displayed pattern directly, without touching the editor
history. -/
def handleSelectPattern (s : AppState) (value : String) : AppState :=
  { s with pattern := value }

/-- Operations of the system that touch the pattern or the history. -/
inductive AppAction
  | change (value : String)
  | undo
  | redo
  | select (value : String)
deriving DecidableEq

/-- Dispatch of one operation on the combined state. -/
def applyAction (s : AppState) : AppAction → AppState
  | .change v => handlePatternChange s v
  | .undo => handleUndo s
  | .redo => handleRedo s
  | .select v => handleSelectPattern s v

/-- Bounds half of the EditHistory invariant: the cursor stays strictly
inside the history. -/
def BoundsInv (s : AppState) : Prop :=
  s.historyIndex < s.history.length

/-- Synchronization half of the EditHistory invariant: the entry at the
cursor is the currently displayed pattern. -/
def SyncInv (s : AppState) : Prop :=
  s.history[s.historyIndex]? = some s.pattern

/-- RegexPattern from src types: library entry with id, name, pattern,
description and optional category. The id is a character list so that the
user-provenance marker check is structural. -/
structure RegexPattern where
  id : List Char
  name : String
  pattern : String
  description : String
  category : Option String
deriving DecidableEq

/-- Form fields of the save dialog in the PatternLibrary. -/
structure FormData where
  name : String
  pattern : String
  description : String
  category : String
deriving DecidableEq

/-- Marker carried by ids of user-created entries. -/
def userIdCode : List Char := ['u', 's', 'e', 'r', '-']

/-- Entry synthesized by the add-new branch of handleSavePattern: the id is
the user marker followed by the current timestamp, the category defaults to
Custom when the form leaves it empty. -/
def newUserPattern (form : FormData) (now : Nat) : RegexPattern :=
  { id := userIdCode ++ (toString now).toList
    name := form.name
    pattern := form.pattern
    description := form.description
    category := some (if form.category = "" then "Custom" else form.category) }

/-- Embedding of handleSavePattern from the PatternLibrary: an empty name
or pattern is rejected; with an editing target set, every user entry with
the matching id gets the form fields; otherwise a fresh user entry is
appended. -/
def handleSavePattern (userPatterns : List RegexPattern) (editingPattern : Option RegexPattern)
    (form : FormData) (now : Nat) : List RegexPattern :=
  if form.name = "" ∨ form.pattern = "" then userPatterns
  else
    match editingPattern with
    | some editing =>
      userPatterns.map (fun p =>
        if p.id = editing.id then
          { p with name := form.name, pattern := form.pattern,
                   description := form.description,
                   category := some (if form.category = "" then "Custom" else form.category) }
        else p)
    | none => userPatterns ++ [newUserPattern form now]

/-- Embedding of the guard of handleEditPattern from the PatternLibrary:
only entries whose id carries the user marker become the editing target
and open the save dialog. -/
def handleEditPattern (target : RegexPattern) : Option RegexPattern :=
  if userIdCode.isPrefixOf target.id then some target else none

/-- Update flow of the store: the edit guard decides whether a save with
the editing target ever runs; a rejected target leaves the user set
untouched because the dialog never opens. -/
def updateUserPattern (userPatterns : List RegexPattern) (target : RegexPattern)
    (form : FormData) (now : Nat) : List RegexPattern :=
  match handleEditPattern target with
  | some editing => handleSavePattern userPatterns (some editing) form now
  | none => userPatterns

/-- Embedding of handleDeletePattern from the PatternLibrary: ids without
the user marker are rejected, otherwise the entry with that id is removed
from the user set. -/
def handleDeletePattern (userPatterns : List RegexPattern) (patternId : List Char) :
    List RegexPattern :=
  if userIdCode.isPrefixOf patternId then
    userPatterns.filter (fun p => decide (p.id ≠ patternId))
  else userPatterns

/-- Embedding of allPatterns from the PatternLibrary: the built-in set
concatenated with the user set. -/
def allPatterns (builtIns userPatterns : List RegexPattern) : List RegexPattern :=
  builtIns ++ userPatterns

/-- Runtime value found in an imported JSON document: either a record
shaped like a PatternEntry or any other value; the import path never
inspects the shape. -/
inductive JsValue
  | entry (p : RegexPattern)
  | other (tag : Nat)
deriving DecidableEq

/-- Outcome of parsing an imported file in handleImportPatterns: the
document parsed to an array of values, parsed to a non-array value, or the
parse threw. -/
inductive ImportParseOutcome
  | arr (items : List JsValue)
  | nonArray
  | failed
deriving DecidableEq

/-- Embedding of handleImportPatterns from the PatternLibrary: an array
result is appended to the user set verbatim and without shape validation,
a non-array result is ignored, and a parse failure leaves the user set
unchanged. -/
def handleImportPatterns (prev : List JsValue) : ImportParseOutcome → List JsValue
  | .arr items => prev ++ items
  | .nonArray => prev
  | .failed => prev

/-- State of the TestArea that the matching effect writes: match list
(named matchList here because the source field name is reserved in Lean),
execution time and validity flag. -/
structure TestAreaState where
  matchList : List PatternMatch
  executionTime : Nat
  isValid : Bool
deriving DecidableEq

/-- Host matching primitive as the TestArea effect sees it: validation
reports a compile error or none, and a run returns the collected matches
with the elapsed time, or none when execution throws. -/
structure MatchPrimitive where
  validate : List Char → RegexFlags → Option String
  runMatches : List Char → RegexFlags → List Char → Option (List PatternMatch × Nat)

/-- Embedding of the matching effect of the TestArea: an empty pattern or
empty sample text clears the matches and the execution time and returns
before the primitive is consulted (the validity flag is not written on
this path); otherwise a compile error marks the state invalid, a
successful run stores the matches, the elapsed time and a true validity
flag, and an execution failure marks the state invalid with cleared
matches. -/
def testAreaEffect (prim : MatchPrimitive) (pattern : List Char) (flags : RegexFlags)
    (sampleText : List Char) (prior : TestAreaState) : TestAreaState :=
  if pattern = [] ∨ sampleText = [] then
    { prior with matchList := [], executionTime := 0 }
  else
    match prim.validate pattern flags with
    | some _ => { prior with isValid := false, matchList := [] }
    | none =>
      match prim.runMatches pattern flags sampleText with
      | some (ms, t) => { matchList := ms, executionTime := t, isValid := true }
      | none => { prior with isValid := false, matchList := [] }

/-- Primitive that always compiles and never finds a run result, used to
evaluate the effect at concrete inputs. -/
def trivialPrimitive : MatchPrimitive :=
  { validate := fun _ _ => none
    runMatches := fun _ _ _ => none }

/-- Default flag set of the App: global on, all other flags off. -/
def defaultFlags : RegexFlags :=
  { global := true, ignoreCase := false, multiline := false, dotAll := false,
    unicode := false, sticky := false }

/-- C2: decoding the encoded flag string restores every flag set, and the
encoding of any decoded string is a subsequence of the canonical flag
order g, i, m, s, u, y, so duplication and ordering in the input never
survive a decode-encode pass. -/
theorem c2_flag_codec_round_trip :
    (∀ f : RegexFlags, parseFlags (flagsToString f) = f) ∧
    (∀ s : String, (flagsToString (parseFlags s)).toList.Sublist "gimsuy".toList) := by
  constructor
  · intro f
    obtain ⟨g, i, m, d, u, y⟩ := f
    cases g <;> cases i <;> cases m <;> cases d <;> cases u <;> cases y <;> decide
  · intro s
    have h : ∀ f : RegexFlags, (flagsToString f).toList.Sublist "gimsuy".toList := by
      intro f
      obtain ⟨g, i, m, d, u, y⟩ := f
      cases g <;> cases i <;> cases m <;> cases d <;> cases u <;> cases y <;> decide
    exact h (parseFlags s)

/-- C1: the global match loop terminates for every well-behaved primitive,
because the zero-length guard advances the next search position one unit
past the start of an empty match; in particular the loop for x* against
abc terminates and yields exactly four empty matches at positions 0, 1, 2
and 3. -/
theorem c1_global_loop_termination :
    (∀ (textLen : Nat) (exec : Nat → Option RawMatch), ExecWellBehaved textLen exec →
      ∀ fuel pos, textLen + 2 ≤ fuel + pos → 0 < fuel →
        (collectGlobalMatches exec fuel pos).isSome) ∧
    (∀ m : RawMatch, m.text.length = 0 → nextSearchIndex m = m.index + 1) ∧
    collectGlobalMatches execXStarAbc 5 0 =
      some [{ text := [], startIndex := 0, endIndex := 0, groups := [] },
            { text := [], startIndex := 1, endIndex := 1, groups := [] },
            { text := [], startIndex := 2, endIndex := 2, groups := [] },
            { text := [], startIndex := 3, endIndex := 3, groups := [] }] := by
  refine ⟨?_, ?_, by decide⟩
  · intro textLen exec hwb fuel
    induction fuel with
    | zero => intro pos _ hpos; omega
    | succ f ih =>
      intro pos hle _
      rcases hm : exec pos with _ | m
      · simp [collectGlobalMatches, hm]
      · obtain ⟨hpi, hpt⟩ := hwb pos m hm
        have hnext : pos + 1 ≤ nextSearchIndex m := by
          unfold nextSearchIndex
          split
          · omega
          · rename_i hlen
            have : 1 ≤ m.text.length := Nat.one_le_iff_ne_zero.mpr hlen
            omega
        have hrec : (collectGlobalMatches exec f (nextSearchIndex m)).isSome :=
          ih (nextSearchIndex m) (by omega) (by omega)
        rcases hr : collectGlobalMatches exec f (nextSearchIndex m) with _ | rest
        · rw [hr] at hrec; simp at hrec
        · simp [collectGlobalMatches, hm, hr]
  · intro m hm
    unfold nextSearchIndex
    simp [hm]

/-- Witness for C1: the termination clause applied to the modelled x*
primitive on abc with the exact fuel bound. -/
theorem c1_global_loop_termination_witness :
    (collectGlobalMatches execXStarAbc 5 0).isSome :=
  c1_global_loop_termination.1 3 execXStarAbc
    (fun p m h => by
      unfold execXStarAbc at h
      split at h
      · cases h; exact ⟨Nat.le_refl _, by omega⟩
      · cases h)
    5 0 (by omega) (by omega)

/-- Concatenation of span content distributes over list append. -/
theorem spansContent_append (l1 l2 : List Span) :
    spansContent (l1 ++ l2) = spansContent l1 ++ spansContent l2 := by
  induction l1 with
  | nil => simp [spansContent]
  | cons s rest ih => simp [spansContent, ih]

/-- Well-formedness from a position forces that position to lie within the
sample text. -/
theorem wellFormedFrom_le (sampleText : List Char) :
    ∀ (ms : List PatternMatch) (i : Nat),
      wellFormedFrom sampleText i ms = true → i ≤ sampleText.length := by
  intro ms
  induction ms with
  | nil =>
    intro i h
    simpa [wellFormedFrom] using h
  | cons m rest ih =>
    intro i h
    simp only [wellFormedFrom, Bool.and_eq_true, decide_eq_true_eq] at h
    obtain ⟨⟨⟨h1, h2⟩, _⟩, h4⟩ := h
    exact le_trans h1 (le_trans h2 (ih m.endIndex h4))

/-- Dropping a prefix of a list splits at any later in-bounds position. -/
theorem drop_split_at (l : List Char) (a b : Nat) (hab : a ≤ b) (hb : b ≤ l.length) :
    l.drop a = (l.take b).drop a ++ l.drop b := by
  conv_lhs => rw [← List.take_append_drop b l]
  rw [List.drop_append_of_le_length]
  rw [List.length_take]
  omega

/-- Content of the match walk reproduces the sample text from the walk
position, for every well-formed match list. -/
theorem renderMatchSpans_content (sampleText : List Char) :
    ∀ (ms : List PatternMatch) (lastIndex : Nat),
      wellFormedFrom sampleText lastIndex ms = true →
      spansContent (renderMatchSpans sampleText ms lastIndex) = sampleText.drop lastIndex := by
  intro ms
  induction ms with
  | nil =>
    intro lastIndex h
    have hle : lastIndex ≤ sampleText.length := by simpa [wellFormedFrom] using h
    unfold renderMatchSpans
    split
    · simp [spansContent, Span.content]
    · have : sampleText.drop lastIndex = [] := List.drop_eq_nil_iff.mpr (by omega)
      simp [spansContent, this]
  | cons m rest ih =>
    intro lastIndex h
    simp only [wellFormedFrom, Bool.and_eq_true, decide_eq_true_eq] at h
    obtain ⟨⟨⟨h1, h2⟩, h3⟩, h4⟩ := h
    have hend : m.endIndex ≤ sampleText.length := wellFormedFrom_le sampleText rest m.endIndex h4
    have hstart : m.startIndex ≤ sampleText.length := le_trans h2 hend
    have hrec := ih m.endIndex h4
    unfold renderMatchSpans
    rw [spansContent_append]
    split
    · rw [drop_split_at sampleText lastIndex m.startIndex h1 hstart,
        drop_split_at sampleText m.startIndex m.endIndex h2 hend]
      simp [spansContent, Span.content, hrec, h3]
    · have heq : lastIndex = m.startIndex := by omega
      rw [heq, drop_split_at sampleText m.startIndex m.endIndex h2 hend]
      simp [spansContent, Span.content, hrec, h3]

/-- C3 counterexample: a match list that is sorted, non-overlapping and
within bounds, but whose match text differs from the slice it covers,
makes the concatenated span content differ from the sample text, so the
claim as stated fails without the Match text invariant. -/
theorem c3_highlight_reconstruction_counterexample :
    spansContent (renderHighlightedText ['a', 'b']
        [{ text := ['Z'], startIndex := 0, endIndex := 1, groups := [] }]) ≠ ['a', 'b'] := by
  decide

/-- C3 amended: for every match list satisfying the Match invariant of the
data model (sorted, non-overlapping, indices in bounds, startIndex at most
endIndex, and each match text equal to the covered slice), concatenating
the emitted span content reproduces the sample text exactly; with zero
matches the output is a single plain span covering the whole text. -/
theorem c3_highlight_reconstruction :
    (∀ (sampleText : List Char) (ms : List PatternMatch),
      wellFormedFrom sampleText 0 ms = true →
      spansContent (renderHighlightedText sampleText ms) = sampleText) ∧
    (∀ sampleText : List Char, renderHighlightedText sampleText [] = [Span.plain sampleText]) := by
  constructor
  · intro sampleText ms h
    unfold renderHighlightedText
    split
    · simp [spansContent, Span.content]
    · simpa using renderMatchSpans_content sampleText ms 0 h
  · intro sampleText
    simp [renderHighlightedText]

/-- Witness for C3: reconstruction evaluated on a concrete well-formed
match list. -/
theorem c3_highlight_reconstruction_witness :
    spansContent (renderHighlightedText ['a', 'b']
        [{ text := ['a'], startIndex := 0, endIndex := 1, groups := [] }]) = ['a', 'b'] :=
  c3_highlight_reconstruction.1 ['a', 'b']
    [{ text := ['a'], startIndex := 0, endIndex := 1, groups := [] }] (by decide)

/-- C9 counterexample: a zero-length match makes the renderer emit an
empty highlighted span even though the text has matches, so the claim that
empty spans never appear outside the degenerate no-match case fails. -/
theorem c9_empty_span_counterexample :
    Span.highlight [] ∈ renderHighlightedText ['a', 'b', 'c']
      [{ text := [], startIndex := 0, endIndex := 0, groups := [] }] := by
  decide

/-- Plain spans produced by the match walk are never empty when every match
start lies within the text. -/
theorem renderMatchSpans_plain_ne_nil (sampleText : List Char) :
    ∀ (ms : List PatternMatch) (lastIndex : Nat),
      (∀ m ∈ ms, m.startIndex ≤ sampleText.length) →
      ∀ t, Span.plain t ∈ renderMatchSpans sampleText ms lastIndex → t ≠ [] := by
  intro ms
  induction ms with
  | nil =>
    intro lastIndex _ t hmem
    unfold renderMatchSpans at hmem
    split at hmem
    · rename_i hlt
      simp only [List.mem_singleton, Span.plain.injEq] at hmem
      subst hmem
      intro hnil
      have := List.drop_eq_nil_iff.mp hnil
      omega
    · simp at hmem
  | cons m rest ih =>
    intro lastIndex hbound t hmem
    have hm : m.startIndex ≤ sampleText.length := hbound m (List.mem_cons_self m rest)
    unfold renderMatchSpans at hmem
    rw [List.mem_append] at hmem
    rcases hmem with hgap | htail
    · split at hgap
      · rename_i hlt
        simp only [List.mem_singleton, Span.plain.injEq] at hgap
        subst hgap
        intro hnil
        have := List.drop_eq_nil_iff.mp hnil
        rw [List.length_take] at this
        omega
      · simp at hgap
    · rcases List.mem_cons.mp htail with hhl | hrec
      · cases hhl
      · exact ih m.endIndex (fun x hx => hbound x (List.mem_cons_of_mem m hx)) t hrec

/-- C9 amended: for every nonempty sample text and every match list whose
start indices lie within the text, the renderer never emits an empty plain
span, the zero-match case included (there the single whole-text span is
nonempty); highlighted spans, however, carry the match text verbatim and
are empty exactly for zero-length matches. -/
theorem c9_no_empty_plain_span :
    ∀ (sampleText : List Char) (ms : List PatternMatch),
      sampleText ≠ [] →
      (∀ m ∈ ms, m.startIndex ≤ sampleText.length) →
      ∀ t, Span.plain t ∈ renderHighlightedText sampleText ms → t ≠ [] := by
  intro sampleText ms htext hbound t hmem
  unfold renderHighlightedText at hmem
  split at hmem
  · simp only [List.mem_singleton, Span.plain.injEq] at hmem
    subst hmem
    exact htext
  · exact renderMatchSpans_plain_ne_nil sampleText ms 0 hbound t hmem

/-- Witness for C9: the nonemptiness guarantee evaluated on a concrete
input with one in-bounds match. -/
theorem c9_no_empty_plain_span_witness :
    (['b'] : List Char) ≠ [] :=
  c9_no_empty_plain_span ['a', 'b']
    [{ text := ['a'], startIndex := 0, endIndex := 1, groups := [] }]
    (by decide) (by decide) ['b'] (by decide)

/-- C4: a new pattern value distinct from the entry at the cursor truncates
the history after the cursor, appends the value, and moves the cursor to
the new last index; in the concrete scenario a, b, undo, c the entry b is
discarded and a subsequent redo is a no-op with the cursor already at the
last entry c. -/
theorem c4_history_truncate_on_diverge :
    (∀ (s : AppState) (v : String), s.history[s.historyIndex]? ≠ some v →
      (handlePatternChange s v).history = s.history.take (s.historyIndex + 1) ++ [v] ∧
      (handlePatternChange s v).historyIndex =
        (s.history.take (s.historyIndex + 1) ++ [v]).length - 1 ∧
      (handlePatternChange s v).pattern = v) ∧
    (let s3 := handlePatternChange
      (handleUndo (handlePatternChange (handlePatternChange initialAppState "a") "b")) "c"
     s3.history = ["", "a", "c"] ∧ "b" ∉ s3.history ∧ handleRedo s3 = s3 ∧
       s3.historyIndex + 1 = s3.history.length ∧ s3.pattern = "c") := by
  constructor
  · intro s v h
    refine ⟨?_, ?_, ?_⟩ <;> simp [handlePatternChange, h]
  · decide

/-- Witness for C4: the truncation clause applied to the initial state and
the value a, whose hypothesis holds since the seeded entry is empty. -/
theorem c4_history_truncate_on_diverge_witness :
    (handlePatternChange initialAppState "a").history =
      initialAppState.history.take (initialAppState.historyIndex + 1) ++ ["a"] ∧
    (handlePatternChange initialAppState "a").historyIndex =
      (initialAppState.history.take (initialAppState.historyIndex + 1) ++ ["a"]).length - 1 ∧
    (handlePatternChange initialAppState "a").pattern = "a" :=
  c4_history_truncate_on_diverge.1 initialAppState "a" (by decide)

/-- C8 counterexample: selecting a library pattern replaces the displayed
pattern without recording it in the editor history, so the entry at the
cursor no longer equals the displayed pattern. -/
theorem c8_invariant_counterexample :
    ¬ SyncInv (applyAction initialAppState (AppAction.select "x+")) := by
  unfold SyncInv
  decide

/-- C8 amended: the bounds half of the EditHistory invariant holds after
every operation of the system, and the entry at the cursor equals the
displayed pattern after every editor operation (pattern change, undo,
redo); a library selection, however, bypasses the history-recording path
and may leave the cursor entry different from the displayed pattern. -/
theorem c8_history_invariant :
    (∀ (s : AppState) (a : AppAction), BoundsInv s → BoundsInv (applyAction s a)) ∧
    (∀ (s : AppState) (a : AppAction), (∀ v, a ≠ AppAction.select v) →
      BoundsInv s → SyncInv s → SyncInv (applyAction s a)) ∧
    BoundsInv initialAppState ∧ SyncInv initialAppState := by
  refine ⟨?_, ?_, by simp [BoundsInv, initialAppState], by unfold SyncInv; decide⟩
  · intro s a hb
    cases a with
    | change v =>
      simp only [applyAction, handlePatternChange]
      split
      · simpa [BoundsInv] using hb
      · simp only [BoundsInv, List.length_append, List.length_take, List.length_cons,
          List.length_nil]
        omega
    | undo =>
      simp only [applyAction, handleUndo]
      split
      · simp only [BoundsInv] at hb ⊢
        omega
      · exact hb
    | redo =>
      simp only [applyAction, handleRedo]
      split
      · rename_i hlt
        simp only [BoundsInv] at hb ⊢
        omega
      · exact hb
    | select v => exact hb
  · intro s a hna hb hs
    cases a with
    | change v =>
      simp only [applyAction, handlePatternChange]
      split
      · rename_i heq
        simpa [SyncInv] using heq
      · simp only [SyncInv, List.length_append, List.length_cons, List.length_nil,
          Nat.add_sub_cancel]
        exact List.getElem?_concat_length _ _
    | undo =>
      simp only [applyAction, handleUndo]
      split
      · rename_i h0
        have hlt : s.historyIndex - 1 < s.history.length := by
          simp only [BoundsInv] at hb
          omega
        simp [SyncInv, List.getElem?_eq_getElem hlt, List.getD_eq_getElem _ _ hlt]
      · exact hs
    | redo =>
      simp only [applyAction, handleRedo]
      split
      · rename_i hlt0
        have hlt : s.historyIndex + 1 < s.history.length := by
          simp only [BoundsInv] at hb
          omega
        simp [SyncInv, List.getElem?_eq_getElem hlt, List.getD_eq_getElem _ _ hlt]
      · exact hs
    | select v => exact ((hna v) rfl).elim

/-- Witness for C8: bounds and synchronization after one concrete pattern
change from the initial state. -/
theorem c8_history_invariant_witness :
    BoundsInv (applyAction initialAppState (AppAction.change "a")) ∧
    SyncInv (applyAction initialAppState (AppAction.change "a")) :=
  ⟨c8_history_invariant.1 initialAppState (AppAction.change "a")
      (by simp [BoundsInv, initialAppState]),
   c8_history_invariant.2.1 initialAppState (AppAction.change "a")
      (fun v h => AppAction.noConfusion h)
      (by simp [BoundsInv, initialAppState])
      (by unfold SyncInv; decide)⟩

/-- Prefix check of a list against itself followed by anything succeeds. -/
theorem isPrefixOf_append_self (l t : List Char) : l.isPrefixOf (l ++ t) = true := by
  induction l with
  | nil => simp
  | cons a rest ih => simp [List.isPrefixOf, ih]

/-- C5: update and delete are no-ops for every id without the user marker,
leaving the combined built-in plus user view unchanged, while an update of
an existing user entry with nonempty form fields replaces its mutable
fields and keeps the user set size, the persisted set being the returned
list. -/
theorem c5_provenance_enforcement :
    (∀ (userPatterns : List RegexPattern) (target : RegexPattern) (form : FormData) (now : Nat),
      userIdCode.isPrefixOf target.id = false →
      updateUserPattern userPatterns target form now = userPatterns) ∧
    (∀ (userPatterns : List RegexPattern) (patternId : List Char),
      userIdCode.isPrefixOf patternId = false →
      handleDeletePattern userPatterns patternId = userPatterns) ∧
    (∀ (builtIns userPatterns : List RegexPattern) (target : RegexPattern)
      (form : FormData) (now : Nat),
      userIdCode.isPrefixOf target.id = false →
      allPatterns builtIns (updateUserPattern userPatterns target form now) =
        allPatterns builtIns userPatterns ∧
      allPatterns builtIns (handleDeletePattern userPatterns target.id) =
        allPatterns builtIns userPatterns) ∧
    (∀ (userPatterns : List RegexPattern) (target : RegexPattern) (form : FormData) (now : Nat),
      userIdCode.isPrefixOf target.id = true →
      form.name ≠ "" → form.pattern ≠ "" → target ∈ userPatterns →
      { target with name := form.name, pattern := form.pattern,
                    description := form.description,
                    category := some (if form.category = "" then "Custom" else form.category) }
          ∈ updateUserPattern userPatterns target form now ∧
      (updateUserPattern userPatterns target form now).length = userPatterns.length) := by
  have hupd : ∀ (userPatterns : List RegexPattern) (target : RegexPattern)
      (form : FormData) (now : Nat),
      userIdCode.isPrefixOf target.id = false →
      updateUserPattern userPatterns target form now = userPatterns := by
    intro userPatterns target form now h
    simp [updateUserPattern, handleEditPattern, h]
  have hdel : ∀ (userPatterns : List RegexPattern) (patternId : List Char),
      userIdCode.isPrefixOf patternId = false →
      handleDeletePattern userPatterns patternId = userPatterns := by
    intro userPatterns patternId h
    simp [handleDeletePattern, h]
  refine ⟨hupd, hdel, ?_, ?_⟩
  · intro builtIns userPatterns target form now h
    rw [hupd userPatterns target form now h, hdel userPatterns target.id h]
    exact ⟨rfl, rfl⟩
  · intro userPatterns target form now h hn hp hmem
    have heq : updateUserPattern userPatterns target form now =
        userPatterns.map (fun p =>
          if p.id = target.id then
            { p with name := form.name, pattern := form.pattern,
                     description := form.description,
                     category := some (if form.category = "" then "Custom" else form.category) }
          else p) := by
      simp [updateUserPattern, handleEditPattern, handleSavePattern, h, hn, hp]
    rw [heq]
    constructor
    · exact List.mem_map.mpr ⟨target, hmem, by simp⟩
    · simp

/-- Witness for C5: a concrete user entry is updated in place, the new
fields are present and the set size is unchanged. -/
theorem c5_provenance_enforcement_witness :
    { id := ['u', 's', 'e', 'r', '-', '1'], name := "new", pattern := "q",
      description := "d", category := some "Custom" } ∈
      updateUserPattern
        [{ id := ['u', 's', 'e', 'r', '-', '1'], name := "old", pattern := "o",
           description := "", category := none }]
        { id := ['u', 's', 'e', 'r', '-', '1'], name := "old", pattern := "o",
          description := "", category := none }
        { name := "new", pattern := "q", description := "d", category := "" } 7 ∧
    (updateUserPattern
        [{ id := ['u', 's', 'e', 'r', '-', '1'], name := "old", pattern := "o",
           description := "", category := none }]
        { id := ['u', 's', 'e', 'r', '-', '1'], name := "old", pattern := "o",
          description := "", category := none }
        { name := "new", pattern := "q", description := "d", category := "" } 7).length = 1 :=
  c5_provenance_enforcement.2.2.2
    [{ id := ['u', 's', 'e', 'r', '-', '1'], name := "old", pattern := "o",
       description := "", category := none }]
    { id := ['u', 's', 'e', 'r', '-', '1'], name := "old", pattern := "o",
      description := "", category := none }
    { name := "new", pattern := "q", description := "d", category := "" } 7
    (by decide) (by decide) (by decide) (by decide)

/-- C6 counterexample: a payload that parses to an array holding a record
that is not PatternEntry-shaped is appended to the user set instead of
being rejected, so the import is not all-or-nothing over well-formed input
as claimed. -/
theorem c6_import_counterexample :
    handleImportPatterns [] (ImportParseOutcome.arr [JsValue.other 0]) ≠ [] := by
  decide

/-- C6 amended: the import appends every item of a parsed array verbatim,
without validating its shape; a payload that fails to parse or parses to a
non-array value leaves the user set unchanged; in every case the result is
either the unchanged user set or the user set followed by the whole
payload, never a partial subset. -/
theorem c6_import_wholesale :
    (∀ (prev items : List JsValue),
      handleImportPatterns prev (ImportParseOutcome.arr items) = prev ++ items) ∧
    (∀ prev : List JsValue, handleImportPatterns prev ImportParseOutcome.nonArray = prev) ∧
    (∀ prev : List JsValue, handleImportPatterns prev ImportParseOutcome.failed = prev) ∧
    (∀ (prev : List JsValue) (r : ImportParseOutcome),
      handleImportPatterns prev r = prev ∨
        ∃ items, r = ImportParseOutcome.arr items ∧
          handleImportPatterns prev r = prev ++ items) := by
  refine ⟨fun _ _ => rfl, fun _ => rfl, fun _ => rfl, ?_⟩
  intro prev r
  cases r with
  | arr items => exact Or.inr ⟨items, rfl, rfl⟩
  | nonArray => exact Or.inl rfl
  | failed => exact Or.inl rfl

/-- C7 counterexample: with an empty pattern the effect clears the matches
and the time but leaves the validity flag at its prior value, so a prior
invalid state stays invalid and the claim that the short-circuit always
reports a valid run fails. -/
theorem c7_short_circuit_counterexample :
    (testAreaEffect trivialPrimitive [] defaultFlags ['a']
      { matchList := [], executionTime := 0, isValid := false }).isValid = false := by
  decide

/-- C7 amended: an empty pattern or empty sample text short-circuits to an
empty match list and zero elapsed time while leaving the validity flag at
its prior value, and the result does not depend on the matching primitive,
so neither compilation nor execution is invoked. -/
theorem c7_short_circuit :
    ∀ (prim prim2 : MatchPrimitive) (pattern : List Char) (flags : RegexFlags)
      (sampleText : List Char) (prior : TestAreaState),
      pattern = [] ∨ sampleText = [] →
      testAreaEffect prim pattern flags sampleText prior =
        { prior with matchList := [], executionTime := 0 } ∧
      testAreaEffect prim pattern flags sampleText prior =
        testAreaEffect prim2 pattern flags sampleText prior := by
  intro prim prim2 pattern flags sampleText prior h
  rcases h with h | h <;> constructor <;> simp [testAreaEffect, h]

/-- Witness for C7: the short-circuit evaluated at an empty pattern with a
nonzero prior time and a true prior flag. -/
theorem c7_short_circuit_witness :
    testAreaEffect trivialPrimitive [] defaultFlags ['a']
        { matchList := [], executionTime := 5, isValid := true } =
      { ({ matchList := [], executionTime := 5, isValid := true } : TestAreaState) with
          matchList := [], executionTime := 0 } ∧
    testAreaEffect trivialPrimitive [] defaultFlags ['a']
        { matchList := [], executionTime := 5, isValid := true } =
      testAreaEffect trivialPrimitive [] defaultFlags ['a']
        { matchList := [], executionTime := 5, isValid := true } :=
  c7_short_circuit trivialPrimitive trivialPrimitive [] defaultFlags ['a']
    { matchList := [], executionTime := 5, isValid := true } (Or.inl rfl)

/-- C10: every entry made by the create path carries the user marker,
the import path inserts payload items verbatim without rewriting ids, an
entry whose id lacks the marker can never be updated or deleted through
the store even though it is listed in the combined view. -/
theorem c10_foreign_ids_stuck :
    (∀ (form : FormData) (now : Nat),
      userIdCode.isPrefixOf (newUserPattern form now).id = true) ∧
    (∀ (userPatterns : List RegexPattern) (form : FormData) (now : Nat),
      form.name ≠ "" → form.pattern ≠ "" →
      handleSavePattern userPatterns none form now = userPatterns ++ [newUserPattern form now]) ∧
    (∀ (prev items : List JsValue),
      handleImportPatterns prev (ImportParseOutcome.arr items) = prev ++ items) ∧
    (∀ (builtIns userPatterns : List RegexPattern) (p : RegexPattern)
      (form : FormData) (now : Nat),
      userIdCode.isPrefixOf p.id = false →
      updateUserPattern userPatterns p form now = userPatterns ∧
      handleDeletePattern userPatterns p.id = userPatterns ∧
      (p ∈ userPatterns → p ∈ allPatterns builtIns userPatterns)) := by
  refine ⟨?_, ?_, fun _ _ => rfl, ?_⟩
  · intro form now
    exact isPrefixOf_append_self userIdCode (toString now).toList
  · intro userPatterns form now hn hp
    simp [handleSavePattern, hn, hp]
  · intro builtIns userPatterns p form now h
    refine ⟨?_, ?_, ?_⟩
    · simp [updateUserPattern, handleEditPattern, h]
    · simp [handleDeletePattern, h]
    · intro hmem
      simp only [allPatterns, List.mem_append]
      exact Or.inr hmem

/-- Witness for C10: a concrete imported entry without the user marker is
immune to update and delete while remaining in the combined view. -/
theorem c10_foreign_ids_stuck_witness :
    updateUserPattern
        [{ id := ['x', '1'], name := "n", pattern := "p", description := "", category := none }]
        { id := ['x', '1'], name := "n", pattern := "p", description := "", category := none }
        { name := "n2", pattern := "p2", description := "", category := "" } 3 =
      [{ id := ['x', '1'], name := "n", pattern := "p", description := "", category := none }] ∧
    handleDeletePattern
        [{ id := ['x', '1'], name := "n", pattern := "p", description := "", category := none }]
        ['x', '1'] =
      [{ id := ['x', '1'], name := "n", pattern := "p", description := "", category := none }] ∧
    ({ id := ['x', '1'], name := "n", pattern := "p", description := "",
       category := none } : RegexPattern) ∈
      allPatterns []
        [{ id := ['x', '1'], name := "n", pattern := "p", description := "", category := none }] :=
  have h := c10_foreign_ids_stuck.2.2.2 []
    [{ id := ['x', '1'], name := "n", pattern := "p", description := "", category := none }]
    { id := ['x', '1'], name := "n", pattern := "p", description := "", category := none }
    { name := "n2", pattern := "p2", description := "", category := "" } 3 (by decide)
  ⟨h.1, h.2.1, h.2.2 (by decide)⟩
